import Mathlib

/-!
Shallow embedding of the argument-call resolver of the huff code generator.

The embedded code is `src/huff_codegen/src/irgen/arg_calls.rs` (the function
`bubble_arg_call`) together with the codegen error type from
`src/huff_utils/src/error.rs`.  Supporting data types and helpers that live in
`huff_utils` outside the provided sources (`MacroDefinition`, `Contract`,
`JumpTable`, `bytes32_to_string`, the opcode table, ...) are modelled from the
specification, as indicated on each definition.

Rust `Vec`s are embedded as Lean `List`s with the same orientation: `push`
appends at the end, `last()` is `getLast?`, `v[..v.len()-1]` is `dropLast`.
Byte strings (`Bytes` holds a hex string in the source) are embedded as Lean
`String`s of hex characters, so a byte count is `length / 2`.  A Rust panic
(the `unwrap()` on line 81 of `arg_calls.rs`) is modelled by the result
`Option.none`; a normal return carries the `Result` value and the final state.
-/

namespace HuffCodegen

/-- Modelled from the spec (§3, §7): an `AstSpan` is a list of spans forming a
chain of invocations; individual spans are abstracted as natural-number
identifiers.  `AstSpan(vec![])` is the empty list. -/
abbrev AstSpan := List Nat

/-- Embedded from `src/huff_utils/src/error.rs` (`CodegenErrorKind`), with the
same constructors (including the `UnkownArgcallType` spelling of the source). -/
inductive CodegenErrorKind where
  | StoragePointersNotDerived
  | InvalidMacroStatement
  | MissingMacroDefinition (name : String)
  | MissingConstantDefinition (name : String)
  | AbiGenerationFailure
  | UnmatchedJumpLabel
  | IOError (msg : String)
  | UnkownArgcallType
  | MissingMacroInvocation (name : String)
  | InvalidMacroInvocation (name : String)
  | UsizeConversion (msg : String)
  deriving DecidableEq

/-- Embedded from `src/huff_utils/src/error.rs` (`CodegenError`): an error
kind, a span, and an optional offending token (token kinds are abstracted as
natural numbers; both error sites in `arg_calls.rs` pass `token: None`). -/
structure CodegenError where
  kind : CodegenErrorKind
  span : AstSpan
  token : Option Nat
  deriving DecidableEq

/-- Modelled from the spec (§3 ConstantDefinition): a constant's value is a
32-byte literal (a big-endian byte list) or a deferred free storage pointer. -/
inductive ConstVal where
  | Literal (l : List Nat)
  | FreeStoragePointer (fsp : Nat)
  deriving DecidableEq

/-- Modelled from the spec (§3): a named constant. -/
structure ConstantDefinition where
  name : String
  value : ConstVal
  deriving DecidableEq

/-- Modelled from the spec (§3 Contract): only the ordered constant list is
consulted by `bubble_arg_call`. -/
structure Contract where
  constants : List ConstantDefinition
  deriving DecidableEq

/-- Modelled from the spec (§3 MacroDefinition): each parameter has an
optional name. -/
structure Argument where
  name : Option String
  deriving DecidableEq

/-- Modelled from the spec (§3 MacroDefinition): name, ordered parameter
list, span.  The body is not consulted by `bubble_arg_call`. -/
structure MacroDefinition where
  name : String
  parameters : List Argument
  span : AstSpan
  deriving DecidableEq

/-- Modelled from the spec (§3 MacroInvocation): a positional argument is a
literal, a symbolic argument call, or a bare identifier. -/
inductive MacroArg where
  | Literal (l : List Nat)
  | ArgCall (name : String)
  | Ident (name : String)
  deriving DecidableEq

/-- Modelled from the spec (§3 MacroInvocation): target name, positional
arguments, span. -/
structure MacroInvocation where
  macro_name : String
  args : List MacroArg
  span : AstSpan
  deriving DecidableEq

/-- Modelled from the spec (§3 Jump). -/
structure Jump where
  label : String
  bytecode_index : Nat
  span : AstSpan
  deriving DecidableEq

/-- Modelled from the spec (§3 JumpTable): a mapping from a key to a list of
jumps, as an association list. -/
abbrev JumpTable := List (Nat × List Jump)

/-- Modelled from the spec (§3 JumpTable): map insertion
(`jump_table.insert(k, v)`), replacing the binding of `k` when present. -/
def jtInsert (jt : JumpTable) (k : Nat) (v : List Jump) : JumpTable :=
  if jt.any (fun p => p.1 == k) then
    jt.map (fun p => if p.1 == k then (k, v) else p)
  else jt ++ [(k, v)]

/-- Lowercase hex digit for a nibble, as produced by Rust's `{:02x}`. -/
def hexChar (n : Nat) : Char :=
  if n < 10 then Char.ofNat (48 + n) else Char.ofNat (87 + n)

/-- Two lowercase hex characters for one byte, as produced by `{:02x}`. -/
def toHex2 (b : Nat) : String :=
  String.mk [hexChar (b / 16 % 16), hexChar (b % 16)]

/-- Hex rendering of a byte list, two characters per byte. -/
def bytesToHex : List Nat → String
  | [] => ""
  | b :: rest => toHex2 b ++ bytesToHex rest

/-- Modelled from the spec (§4.1 encode_push): the payload of a push is the
32-byte literal with its leading zero bytes stripped; an all-zero literal
keeps the minimum-width payload `[0x00]`. -/
def pushPayload (l : List Nat) : List Nat :=
  let stripped := l.dropWhile (fun b => b == 0)
  if stripped.isEmpty then [0] else stripped

/-- Modelled from the spec (§4.1, referenced by `arg_calls.rs` lines 30 and
70): `bytes32_to_string(l, false)` renders the literal as lowercase hex with
no prefix and with leading zero bytes stripped (an all-zero literal renders
as "00"), so that `95 + hex.len() / 2` in the caller is `0x5F + n` for `n`
payload bytes. -/
def bytes32_to_string (l : List Nat) : String := bytesToHex (pushPayload l)

/-- The push fragment built inline at `arg_calls.rs` lines 30–31 and 70–72:
`format!("{:02x}{}", 95 + hex_literal.len() / 2, hex_literal)`. -/
def encode_push (l : List Nat) : String :=
  let hex_literal := bytes32_to_string l
  toHex2 (95 + hex_literal.length / 2) ++ hex_literal

/-- Modelled from the spec (§4.1 resolve_opcode): the opcode mnemonic table of
the target VM, case-sensitive, mapping a mnemonic to its single opcode byte.
The table lives outside the provided sources; these representative entries
include every mnemonic the development evaluates. -/
def opcodeTable : List (String × Nat) :=
  [("add", 1), ("mul", 2), ("sub", 3), ("jumpdest", 91), ("push2", 97),
   ("dup1", 128), ("swap1", 144), ("mstore", 82), ("mload", 81)]

/-- Modelled from the spec (§4.1): `Opcode::from_str`, the mnemonic lookup. -/
def opcodeFromStr (s : String) : Option Nat :=
  (opcodeTable.find? (fun p => p.1 == s)).map Prod.snd

/-- Modelled from the spec (§4.1): the `Display` of an opcode is its single
byte as two hex characters (`o.to_string()` at `arg_calls.rs` line 50). -/
def opcodeToString (o : Nat) : String := toHex2 o

/-- The placeholder fragment `format!("{}xxxx", Opcode::Push2)` of
`arg_calls.rs` lines 129 and 158: the `PUSH2` byte 0x61 followed by the four
placeholder characters that the linker later overwrites. -/
def push2_placeholder : String := opcodeToString 97 ++ "xxxx"

/-- The state mutated by `bubble_arg_call`: the fragment list `bytes`, the
`offset` counter, and the `jump_table`. -/
structure CodegenState where
  bytes : List (Nat × String)
  offset : Nat
  jump_table : JumpTable
  deriving DecidableEq

instance : DecidableEq (Except CodegenError Unit) := fun a b =>
  match a, b with
  | Except.ok x, Except.ok y =>
    if h : x = y then isTrue (by rw [h]) else isFalse (fun hh => by cases hh; exact h rfl)
  | Except.error x, Except.error y =>
    if h : x = y then isTrue (by rw [h]) else isFalse (fun hh => by cases hh; exact h rfl)
  | Except.ok _, Except.error _ => isFalse (fun hh => by cases hh)
  | Except.error _, Except.ok _ => isFalse (fun hh => by cases hh)

/-- The outcome of one call: `none` models a Rust panic; otherwise the
`Result<(), CodegenError>` value together with the state after the call. -/
abbrev BubbleResult := Option (Except CodegenError Unit × CodegenState)

/-- Embedding of `bubble_arg_call` (`src/huff_codegen/src/irgen/arg_calls.rs`
lines 11–163), indexed by a fuel counter that only the recursive `ArgCall`
branch consumes.  The public wrapper `bubble_arg_call` supplies
`scope.length + 1` fuel, which the recursion preserves (each recursive step
shortens the scope by exactly one), so the fuel never reaches zero on the
wrapper's executions. -/
def bubble_arg_call_fuel : Nat → String → MacroDefinition → Contract →
    List MacroDefinition → List (Nat × MacroInvocation) → CodegenState →
    BubbleResult
  | 0, _, _, _, _, _, _ => none
  | fuel + 1, arg_name, macro_def, contract, scope, mis, st =>
    let starting_offset := st.offset
    -- Check Constant Definitions (lines 25–47)
    match contract.constants.find? (fun const_def => const_def.name == arg_name) with
    | some constant =>
      match constant.value with
      | ConstVal.Literal l =>
        let hex_literal := bytes32_to_string l
        let push_bytes := toHex2 (95 + hex_literal.length / 2) ++ hex_literal
        some (Except.ok (),
          { st with
            offset := st.offset + push_bytes.length / 2,
            bytes := st.bytes ++ [(starting_offset, push_bytes)] })
      | ConstVal.FreeStoragePointer _fsp =>
        some (Except.error ⟨CodegenErrorKind.StoragePointersNotDerived, [], none⟩, st)
    | none =>
    -- Check Opcode Definition (lines 48–53)
    match opcodeFromStr arg_name with
    | some o =>
      let b := opcodeToString o
      some (Except.ok (),
        { st with
          offset := st.offset + b.length / 2,
          bytes := st.bytes ++ [(starting_offset, b)] })
    | none =>
    match mis.getLast? with
    | some macro_invoc =>
      -- Literal & Arg Call Check (lines 54–146)
      match macro_def.parameters.findIdx? (fun r => r.name == some arg_name) with
      | some pos =>
        match macro_invoc.2.args.get? pos with
        | some (MacroArg.Literal l) =>
          let hex_literal := bytes32_to_string l
          let push_bytes := toHex2 (95 + hex_literal.length / 2) ++ hex_literal
          some (Except.ok (),
            { st with
              offset := st.offset + push_bytes.length / 2,
              bytes := st.bytes ++ [(starting_offset, push_bytes)] })
        | some (MacroArg.ArgCall _ac) =>
          -- Bubble up (lines 77–121); note the recursion reuses `arg_name`.
          let new_scope := scope.dropLast
          match new_scope.getLast? with
          | none => none  -- `new_scope.last().unwrap()` panics (line 81)
          | some bubbled_macro_invocation =>
            match mis.getLast? with
            | none =>
              some (Except.error
                ⟨CodegenErrorKind.MissingMacroInvocation macro_def.name,
                 bubbled_macro_invocation.span, none⟩, st)
            | some last_mi =>
              if last_mi.2.macro_name == macro_def.name then
                bubble_arg_call_fuel fuel arg_name bubbled_macro_invocation
                  contract new_scope mis.dropLast st
              else
                bubble_arg_call_fuel fuel arg_name bubbled_macro_invocation
                  contract new_scope mis st
        | some (MacroArg.Ident iden) =>
          -- Equivalent to a label call (lines 123–139)
          some (Except.ok (),
            { st with
              bytes := st.bytes ++ [(st.offset, push2_placeholder)],
              jump_table := jtInsert st.jump_table st.offset
                [⟨iden, 0, macro_invoc.2.span⟩],
              offset := st.offset + 3 })
        | none =>
          -- warning only: found in def but not in invocation (lines 141–143)
          some (Except.ok (), st)
      | none =>
        -- warning only: not in arg list (lines 144–146)
        some (Except.ok (), st)
    | none =>
      -- Label call (lines 147–160)
      let new_span : AstSpan :=
        match mis.getLast? with
        | some mi => mi.2.span
        | none => []
      some (Except.ok (),
        { st with
          jump_table := jtInsert st.jump_table
            (((mis.getLast?).map Prod.fst).getD 0)
            [⟨arg_name, 0, new_span⟩],
          bytes := st.bytes ++ [(st.offset, push2_placeholder)],
          offset := st.offset + 3 })

/-- `bubble_arg_call` at its natural fuel. -/
def bubble_arg_call (arg_name : String) (macro_def : MacroDefinition)
    (contract : Contract) (scope : List MacroDefinition)
    (mis : List (Nat × MacroInvocation)) (st : CodegenState) : BubbleResult :=
  bubble_arg_call_fuel (scope.length + 1) arg_name macro_def contract scope mis st

/-- `chainedFrom o added final` checks the offset–length chain of the spec's
§8 invariant 1 over a run of appended fragments: each fragment starts at the
running offset and advances it by its byte length (`length / 2` of the hex
string), ending exactly at `final`. -/
def chainedFrom : Nat → List (Nat × String) → Nat → Bool
  | o, [], final => o == final
  | o, (a, b) :: rest, final => a == o && chainedFrom (o + b.length / 2) rest final

/-! Concrete sample data used by witnesses and counterexamples: two macros
`A(x) { B(<x>) }` and `B(y) { <y> }`, the invocation `A(0x2a)` of `A` pushing
the invocation `B(<x>)` of `B`, and small contracts. -/

/-- Sample: definition of macro `A` with one parameter `x`. -/
def defA : MacroDefinition := ⟨"A", [⟨some "x"⟩], [1]⟩

/-- Sample: definition of macro `B` with one parameter `y`. -/
def defB : MacroDefinition := ⟨"B", [⟨some "y"⟩], [2]⟩

/-- Sample: definition of a parameterless macro `C`. -/
def defC : MacroDefinition := ⟨"C", [], [5]⟩

/-- Sample: the 32-byte literal 0x2a. -/
def lit42 : List Nat := List.replicate 31 0 ++ [42]

/-- Sample: invocation frame for `A(0x2a)`. -/
def miA : Nat × MacroInvocation := (0, ⟨"A", [MacroArg.Literal lit42], [3]⟩)

/-- Sample: invocation frame for `B(<x>)`, whose argument bubbles up to `A`. -/
def miB : Nat × MacroInvocation := (1, ⟨"B", [MacroArg.ArgCall "x"], [4]⟩)

/-- Sample: invocation frame for `B(lab)` with a bare identifier argument. -/
def miI : Nat × MacroInvocation := (2, ⟨"B", [MacroArg.Ident "lab"], [7]⟩)

/-- Sample: an invocation frame with index 5 for a parameterless macro `M`. -/
def miM : Nat × MacroInvocation := (5, ⟨"M", [], [6]⟩)

/-- Sample: a contract with no constants. -/
def emptyContract : Contract := ⟨[]⟩

/-- Sample: a constant named `add`, colliding with the opcode mnemonic. -/
def constAdd : ConstantDefinition := ⟨"add", ConstVal.Literal lit42⟩

/-- Sample: a contract whose only constant is named `add`. -/
def contractAdd : Contract := ⟨[constAdd]⟩

/-- Sample: a constant whose value is an underived free storage pointer. -/
def constFsp : ConstantDefinition := ⟨"FSP_LOC", ConstVal.FreeStoragePointer 0⟩

/-- Sample: a contract holding the underived storage-pointer constant. -/
def contractFsp : Contract := ⟨[constFsp]⟩

/-- Sample: the empty starting state. -/
def st0 : CodegenState := ⟨[], 0, []⟩

/-! ### Helper lemmas -/

theorem push2_placeholder_length : push2_placeholder.length = 6 := rfl

theorem toHex2_length (b : Nat) : (toHex2 b).length = 2 := rfl

theorem bytesToHex_length (l : List Nat) : (bytesToHex l).length = 2 * l.length := by
  induction l with
  | nil => rfl
  | cons b rest ih =>
    simp only [bytesToHex, String.length_append, toHex2_length, ih, List.length_cons]
    omega

theorem pushPayload_length_pos (l : List Nat) : 1 ≤ (pushPayload l).length := by
  unfold pushPayload
  dsimp only
  split
  · simp
  · rename_i hne
    have hnil : l.dropWhile (fun b => b == 0) ≠ [] := by
      simpa [List.isEmpty_iff] using hne
    have := List.length_pos.mpr hnil
    omega

theorem pushPayload_length_le (l : List Nat) (h : l.length = 32) :
    (pushPayload l).length ≤ 32 := by
  unfold pushPayload
  dsimp only
  split
  · simp
  · have hsub := (List.dropWhile_sublist (l := l) (fun b => b == 0)).length_le
    omega

theorem encode_push_eq (l : List Nat) :
    encode_push l = toHex2 (95 + (pushPayload l).length) ++ bytesToHex (pushPayload l) := by
  unfold encode_push bytes32_to_string
  dsimp only
  have h2 : (bytesToHex (pushPayload l)).length / 2 = (pushPayload l).length := by
    rw [bytesToHex_length]
    omega
  rw [h2]

theorem encode_push_length (l : List Nat) :
    (encode_push l).length = 2 * (pushPayload l).length + 2 := by
  rw [encode_push_eq, String.length_append, toHex2_length, bytesToHex_length]
  omega

theorem chainedFrom_sum :
    ∀ (added : List (Nat × String)) (o final : Nat),
      chainedFrom o added final = true →
      final = o + (added.map (fun p => p.2.length / 2)).sum := by
  intro added
  induction added with
  | nil =>
    intro o final h
    simp only [chainedFrom, beq_iff_eq] at h
    simp [h]
  | cons hd tl ih =>
    intro o final h
    obtain ⟨fst, snd⟩ := hd
    simp only [chainedFrom, Bool.and_eq_true, beq_iff_eq] at h
    have := ih _ _ h.2
    simp only [List.map_cons, List.sum_cons]
    omega

/-- One-step behavior shared by several claims: a name that matches a
constant with a `Literal` value emits the constant's push bytes. -/
theorem bubble_constant_literal
    (arg_name : String) (macro_def : MacroDefinition) (contract : Contract)
    (scope : List MacroDefinition) (mis : List (Nat × MacroInvocation))
    (st : CodegenState) (constant : ConstantDefinition) (l : List Nat)
    (hc : contract.constants.find? (fun const_def => const_def.name == arg_name) = some constant)
    (hv : constant.value = ConstVal.Literal l) :
    bubble_arg_call arg_name macro_def contract scope mis st =
      some (Except.ok (),
        { st with
          offset := st.offset + (encode_push l).length / 2,
          bytes := st.bytes ++ [(st.offset, encode_push l)] }) := by
  unfold bubble_arg_call bubble_arg_call_fuel
  simp only [hc, hv, encode_push]

/-- One-step behavior: a parameter whose top-frame argument is a `Literal`
emits that literal's push bytes. -/
theorem bubble_invocation_literal
    (arg_name : String) (macro_def : MacroDefinition) (contract : Contract)
    (scope : List MacroDefinition) (mis : List (Nat × MacroInvocation))
    (st : CodegenState) (macro_invoc : Nat × MacroInvocation) (pos : Nat) (l : List Nat)
    (hc : contract.constants.find? (fun const_def => const_def.name == arg_name) = none)
    (ho : opcodeFromStr arg_name = none)
    (hm : mis.getLast? = some macro_invoc)
    (hp : macro_def.parameters.findIdx? (fun r => r.name == some arg_name) = some pos)
    (ha : macro_invoc.2.args.get? pos = some (MacroArg.Literal l)) :
    bubble_arg_call arg_name macro_def contract scope mis st =
      some (Except.ok (),
        { st with
          offset := st.offset + (encode_push l).length / 2,
          bytes := st.bytes ++ [(st.offset, encode_push l)] }) := by
  unfold bubble_arg_call bubble_arg_call_fuel
  simp only [hc, ho, hm, hp, ha, encode_push]

/-- Every successful run of `bubble_arg_call_fuel` only appends fragments,
and the appended run is offset-chained from the entry offset to the final
offset. -/
theorem bubble_fuel_ok_extends :
    ∀ (fuel : Nat) (arg_name : String) (macro_def : MacroDefinition)
      (contract : Contract) (scope : List MacroDefinition)
      (mis : List (Nat × MacroInvocation)) (st st' : CodegenState),
      bubble_arg_call_fuel fuel arg_name macro_def contract scope mis st =
        some (Except.ok (), st') →
      ∃ added, st'.bytes = st.bytes ++ added ∧
        chainedFrom st.offset added st'.offset = true := by
  intro fuel
  induction fuel with
  | zero =>
    intro arg_name macro_def contract scope mis st st' h
    exact absurd h (by simp [bubble_arg_call_fuel])
  | succ fuel ih =>
    intro arg_name macro_def contract scope mis st st' h
    rw [bubble_arg_call_fuel] at h
    cases hc : List.find? (fun const_def => const_def.name == arg_name) contract.constants with
    | some constant =>
      cases hv : constant.value with
      | Literal l =>
        simp only [hc, hv] at h
        simp only [Option.some.injEq, Prod.mk.injEq] at h
        obtain ⟨-, h2⟩ := h
        subst h2
        refine ⟨[(st.offset, _)], rfl, ?_⟩
        simp [chainedFrom]
      | FreeStoragePointer fsp =>
        simp only [hc, hv] at h
        exact absurd h (by simp)
    | none =>
      cases ho : opcodeFromStr arg_name with
      | some o =>
        simp only [hc, ho] at h
        simp only [Option.some.injEq, Prod.mk.injEq] at h
        obtain ⟨-, h2⟩ := h
        subst h2
        refine ⟨[(st.offset, _)], rfl, ?_⟩
        simp [chainedFrom]
      | none =>
        cases hm : mis.getLast? with
        | none =>
          simp only [hc, ho, hm] at h
          simp only [Option.some.injEq, Prod.mk.injEq] at h
          obtain ⟨-, h2⟩ := h
          subst h2
          refine ⟨[(st.offset, push2_placeholder)], rfl, ?_⟩
          simp [chainedFrom, push2_placeholder_length]
        | some macro_invoc =>
          cases hp : List.findIdx? (fun r => r.name == some arg_name) macro_def.parameters with
          | none =>
            simp only [hc, ho, hm, hp] at h
            simp only [Option.some.injEq, Prod.mk.injEq] at h
            obtain ⟨-, h2⟩ := h
            subst h2
            exact ⟨[], by simp, by simp [chainedFrom]⟩
          | some pos =>
            cases ha : macro_invoc.2.args.get? pos with
            | none =>
              simp only [hc, ho, hm, hp, ha] at h
              simp only [Option.some.injEq, Prod.mk.injEq] at h
              obtain ⟨-, h2⟩ := h
              subst h2
              exact ⟨[], by simp, by simp [chainedFrom]⟩
            | some arg =>
              cases arg with
              | Literal l =>
                simp only [hc, ho, hm, hp, ha] at h
                simp only [Option.some.injEq, Prod.mk.injEq] at h
                obtain ⟨-, h2⟩ := h
                subst h2
                refine ⟨[(st.offset, _)], rfl, ?_⟩
                simp [chainedFrom]
              | ArgCall inner =>
                simp only [hc, ho, hm, hp, ha] at h
                cases hs : scope.dropLast.getLast? with
                | none =>
                  simp only [hs] at h
                  exact Option.noConfusion h
                | some bub =>
                  simp only [hs] at h
                  split at h
                  · exact ih _ _ _ _ _ _ _ h
                  · exact ih _ _ _ _ _ _ _ h
              | Ident iden =>
                simp only [hc, ho, hm, hp, ha] at h
                simp only [Option.some.injEq, Prod.mk.injEq] at h
                obtain ⟨-, h2⟩ := h
                subst h2
                refine ⟨[(st.offset, push2_placeholder)], rfl, ?_⟩
                simp [chainedFrom, push2_placeholder_length]

/-- Every erroring run of `bubble_arg_call_fuel` leaves the state exactly as
it was and the error is always `StoragePointersNotDerived` with an empty
span and no token: the `MissingMacroInvocation` arm is dead code because the
bubbling step re-examines an invocation stack already known non-empty. -/
theorem bubble_fuel_error_frozen :
    ∀ (fuel : Nat) (arg_name : String) (macro_def : MacroDefinition)
      (contract : Contract) (scope : List MacroDefinition)
      (mis : List (Nat × MacroInvocation)) (st : CodegenState)
      (e : CodegenError) (st' : CodegenState),
      bubble_arg_call_fuel fuel arg_name macro_def contract scope mis st =
        some (Except.error e, st') →
      st' = st ∧ e = ⟨CodegenErrorKind.StoragePointersNotDerived, [], none⟩ := by
  intro fuel
  induction fuel with
  | zero =>
    intro arg_name macro_def contract scope mis st e st' h
    exact absurd h (by simp [bubble_arg_call_fuel])
  | succ fuel ih =>
    intro arg_name macro_def contract scope mis st e st' h
    rw [bubble_arg_call_fuel] at h
    cases hc : List.find? (fun const_def => const_def.name == arg_name) contract.constants with
    | some constant =>
      cases hv : constant.value with
      | Literal l =>
        simp only [hc, hv] at h
        exact absurd h (by simp)
      | FreeStoragePointer fsp =>
        simp only [hc, hv] at h
        simp only [Option.some.injEq, Prod.mk.injEq] at h
        obtain ⟨h1, h2⟩ := h
        exact ⟨h2.symm, (Except.error.inj h1).symm⟩
    | none =>
      cases ho : opcodeFromStr arg_name with
      | some o =>
        simp only [hc, ho] at h
        exact absurd h (by simp)
      | none =>
        cases hm : mis.getLast? with
        | none =>
          simp only [hc, ho, hm] at h
          exact absurd h (by simp)
        | some macro_invoc =>
          cases hp : List.findIdx? (fun r => r.name == some arg_name) macro_def.parameters with
          | none =>
            simp only [hc, ho, hm, hp] at h
            exact absurd h (by simp)
          | some pos =>
            cases ha : macro_invoc.2.args.get? pos with
            | none =>
              simp only [hc, ho, hm, hp, ha] at h
              exact absurd h (by simp)
            | some arg =>
              cases arg with
              | Literal l =>
                simp only [hc, ho, hm, hp, ha] at h
                exact absurd h (by simp)
              | ArgCall inner =>
                simp only [hc, ho, hm, hp, ha] at h
                cases hs : scope.dropLast.getLast? with
                | none =>
                  simp only [hs] at h
                  exact Option.noConfusion h
                | some bub =>
                  simp only [hs] at h
                  split at h
                  · exact ih _ _ _ _ _ _ _ _ h
                  · exact ih _ _ _ _ _ _ _ _ h
              | Ident iden =>
                simp only [hc, ho, hm, hp, ha] at h
                exact absurd h (by simp)

/-! ### Claim theorems -/

/-- C1 (amended): when a name resolves to a parameter of the current
definition and the top invocation frame's argument at that position is
`ArgCall(inner)`, the resolver recurses with the name LEFT UNCHANGED (the
inner name is ignored), the definition replaced by the outer definition
obtained by popping one scope frame, and with one invocation frame popped
if and only if the top invocation's target name equals the current
definition's name. -/
theorem bubble_arg_call_argcall_keeps_name
    (arg_name : String) (macro_def : MacroDefinition) (contract : Contract)
    (scope : List MacroDefinition) (mis : List (Nat × MacroInvocation))
    (st : CodegenState) (macro_invoc : Nat × MacroInvocation) (pos : Nat)
    (inner : String) (outer_def : MacroDefinition)
    (hc : contract.constants.find? (fun const_def => const_def.name == arg_name) = none)
    (ho : opcodeFromStr arg_name = none)
    (hm : mis.getLast? = some macro_invoc)
    (hp : macro_def.parameters.findIdx? (fun r => r.name == some arg_name) = some pos)
    (ha : macro_invoc.2.args.get? pos = some (MacroArg.ArgCall inner))
    (hs : scope.dropLast.getLast? = some outer_def) :
    bubble_arg_call arg_name macro_def contract scope mis st =
      (if macro_invoc.2.macro_name == macro_def.name then
        bubble_arg_call arg_name outer_def contract scope.dropLast mis.dropLast st
      else
        bubble_arg_call arg_name outer_def contract scope.dropLast mis st) := by
  have hne : scope ≠ [] := by
    intro hveq
    rw [hveq] at hs
    simp at hs
  have hlen : scope.length = scope.dropLast.length + 1 := by
    rw [List.length_dropLast]
    have := List.length_pos.mpr hne
    omega
  simp only [bubble_arg_call]
  rw [← hlen]
  conv_lhs => simp only [bubble_arg_call_fuel]
  simp only [hc, ho, hm, hp, ha, hs]

/-- C1 counterexample: with `A(x) { B(<x>) }` and `B(y) { <y> }`, resolving
`y` in `B` does NOT equal the recursion the claim predicts (name replaced by
the inner name `x`, outer def `A`, invocation frame popped): the code keeps
the name `y`, fails to find it among `A`'s parameters, and emits nothing,
while the claimed recursion resolves `x` to the literal and emits a push. -/
theorem bubble_arg_call_argcall_inner_name_refuted :
    bubble_arg_call "y" defB emptyContract [defA, defB] [miA, miB] st0 ≠
      bubble_arg_call "x" defA emptyContract [defA] [miA] st0 := by decide

/-- C1 witness: the amended recursion equation at the concrete two-level
bubbling input. -/
theorem bubble_arg_call_argcall_keeps_name_witness :
    bubble_arg_call "y" defB emptyContract [defA, defB] [miA, miB] st0 =
      (if miB.2.macro_name == defB.name then
        bubble_arg_call "y" defA emptyContract [defA, defB].dropLast [miA, miB].dropLast st0
      else
        bubble_arg_call "y" defA emptyContract [defA, defB].dropLast [miA, miB] st0) :=
  bubble_arg_call_argcall_keeps_name "y" defB emptyContract [defA, defB] [miA, miB] st0
    miB 0 "x" defA (by decide) (by decide) (by decide) (by decide) (by decide) (by decide)

/-- C2 (amended): when the name matches no constant and no opcode, the
resolver treats it as a forward label reference ONLY when the invocation
stack is empty: it then appends the 3-byte `PUSH2` placeholder at the current
offset, records a Jump with the name as label (bytecode_index 0, empty span)
keyed by 0 in the JumpTable, and advances the offset by exactly 3. -/
theorem bubble_arg_call_label_fallback_empty_stack
    (arg_name : String) (macro_def : MacroDefinition) (contract : Contract)
    (scope : List MacroDefinition) (mis : List (Nat × MacroInvocation))
    (st : CodegenState)
    (hc : contract.constants.find? (fun const_def => const_def.name == arg_name) = none)
    (ho : opcodeFromStr arg_name = none)
    (hm : mis.getLast? = none) :
    bubble_arg_call arg_name macro_def contract scope mis st =
      some (Except.ok (),
        { st with
          jump_table := jtInsert st.jump_table 0 [⟨arg_name, 0, []⟩],
          bytes := st.bytes ++ [(st.offset, push2_placeholder)],
          offset := st.offset + 3 }) := by
  unfold bubble_arg_call bubble_arg_call_fuel
  simp only [hc, ho, hm, Option.map_none', Option.getD_none]

/-- C2 counterexample: name `foo` (no constant, no opcode), invocation stack
non-empty, `foo` not among the current definition's parameters.  The claim
predicts a `PUSH2` placeholder and an offset advance of 3; the code only
logs a warning and returns with the state unchanged. -/
theorem bubble_arg_call_label_fallback_refuted :
    bubble_arg_call "foo" defC emptyContract [] [miM] st0 =
      some (Except.ok (), st0) := by decide

/-- C2 witness: the label fallback at a concrete input with an empty
invocation stack. -/
theorem bubble_arg_call_label_fallback_empty_stack_witness :
    bubble_arg_call "foo" defC emptyContract [] [] st0 =
      some (Except.ok (),
        { st0 with
          jump_table := jtInsert st0.jump_table 0 [⟨"foo", 0, []⟩],
          bytes := st0.bytes ++ [(st0.offset, push2_placeholder)],
          offset := st0.offset + 3 }) :=
  bubble_arg_call_label_fallback_empty_stack "foo" defC emptyContract [] [] st0
    (by decide) (by decide) (by decide)

/-- C3 (amended): when `ArgCall` bubbling is triggered while the scope stack
has depth 0 or 1 (so in particular whenever it is shallower than a non-empty
invocation stack by that much), the function PANICS: `scope[..len-1]` is
empty and `new_scope.last().unwrap()` aborts, modelled as `none`.  The last
scope frame is never reused as the outer definition. -/
theorem bubble_arg_call_shallow_scope_panics
    (arg_name : String) (macro_def : MacroDefinition) (contract : Contract)
    (scope : List MacroDefinition) (mis : List (Nat × MacroInvocation))
    (st : CodegenState) (macro_invoc : Nat × MacroInvocation) (pos : Nat)
    (inner : String)
    (hc : contract.constants.find? (fun const_def => const_def.name == arg_name) = none)
    (ho : opcodeFromStr arg_name = none)
    (hm : mis.getLast? = some macro_invoc)
    (hp : macro_def.parameters.findIdx? (fun r => r.name == some arg_name) = some pos)
    (ha : macro_invoc.2.args.get? pos = some (MacroArg.ArgCall inner))
    (hs : scope.dropLast = []) :
    bubble_arg_call arg_name macro_def contract scope mis st = none := by
  unfold bubble_arg_call bubble_arg_call_fuel
  simp only [hc, ho, hm, hp, ha, hs, List.getLast?_nil]

/-- C3 counterexample: scope stack `[B]` (depth 1) strictly shallower than
the invocation stack `[A(0x2a), B(<x>)]` (depth 2) when bubbling triggers;
the claim says the call completes without panic, but the code panics
(modelled as `none`). -/
theorem bubble_arg_call_shallow_scope_no_panic_refuted :
    bubble_arg_call "y" defB emptyContract [defB] [miA, miB] st0 = none := by decide

/-- C3 witness: the panic also occurs at scope depth 0. -/
theorem bubble_arg_call_shallow_scope_panics_witness :
    bubble_arg_call "y" defB emptyContract [] [miA, miB] st0 = none :=
  bubble_arg_call_shallow_scope_panics "y" defB emptyContract [] [miA, miB] st0
    miB 0 "x" (by decide) (by decide) (by decide) (by decide) (by decide) (by decide)

/-- C4: resolution is first-match over constant, then opcode, then parameter,
then label: a name that names a `ConstantDefinition` with a `Literal` value
and simultaneously parses as an opcode mnemonic emits the constant's push
bytes, never the opcode byte. -/
theorem bubble_arg_call_constant_beats_opcode
    (arg_name : String) (macro_def : MacroDefinition) (contract : Contract)
    (scope : List MacroDefinition) (mis : List (Nat × MacroInvocation))
    (st : CodegenState) (constant : ConstantDefinition) (l : List Nat) (o : Nat)
    (hc : contract.constants.find? (fun const_def => const_def.name == arg_name) = some constant)
    (hv : constant.value = ConstVal.Literal l)
    (ho : opcodeFromStr arg_name = some o) :
    bubble_arg_call arg_name macro_def contract scope mis st =
      some (Except.ok (),
        { st with
          offset := st.offset + (encode_push l).length / 2,
          bytes := st.bytes ++ [(st.offset, encode_push l)] }) :=
  bubble_constant_literal arg_name macro_def contract scope mis st constant l hc hv

/-- C4 witness: the name `add` is both a constant of the contract and an
opcode mnemonic; the constant wins. -/
theorem bubble_arg_call_constant_beats_opcode_witness :
    bubble_arg_call "add" defC contractAdd [] [] st0 =
      some (Except.ok (),
        { st0 with
          offset := st0.offset + (encode_push lit42).length / 2,
          bytes := st0.bytes ++ [(st0.offset, encode_push lit42)] }) :=
  bubble_arg_call_constant_beats_opcode "add" defC contractAdd [] [] st0
    constAdd lit42 1 (by decide) (by decide) (by decide)

/-- C5: a name that names a constant whose value is still
`FreeStoragePointer` fails with the fatal `StoragePointersNotDerived` error
(empty span, no token), leaving the state untouched. -/
theorem bubble_arg_call_storage_pointers_not_derived
    (arg_name : String) (macro_def : MacroDefinition) (contract : Contract)
    (scope : List MacroDefinition) (mis : List (Nat × MacroInvocation))
    (st : CodegenState) (constant : ConstantDefinition) (fsp : Nat)
    (hc : contract.constants.find? (fun const_def => const_def.name == arg_name) = some constant)
    (hv : constant.value = ConstVal.FreeStoragePointer fsp) :
    bubble_arg_call arg_name macro_def contract scope mis st =
      some (Except.error ⟨CodegenErrorKind.StoragePointersNotDerived, [], none⟩, st) := by
  unfold bubble_arg_call bubble_arg_call_fuel
  simp only [hc, hv]

/-- C5 witness: at the concrete contract whose constant is an underived
storage pointer. -/
theorem bubble_arg_call_storage_pointers_not_derived_witness :
    bubble_arg_call "FSP_LOC" defC contractFsp [] [] st0 =
      some (Except.error ⟨CodegenErrorKind.StoragePointersNotDerived, [], none⟩, st0) :=
  bubble_arg_call_storage_pointers_not_derived "FSP_LOC" defC contractFsp [] [] st0
    constFsp 0 (by decide) (by decide)

/-- C6: every 32-byte literal emitted by `bubble_arg_call` (from a constant's
`Literal` value or from a `Literal` macro-invocation argument) uses the
variable-width push encoding: leading zero bytes stripped, first byte
`0x5F + n` for the `n` remaining payload bytes (1 ≤ n ≤ 32) followed by those
bytes, and the offset advances by exactly `n + 1`. -/
theorem bubble_arg_call_push_encoding
    (l : List Nat) (hl : l.length = 32)
    (arg_name : String) (macro_def : MacroDefinition) (contract : Contract)
    (scope : List MacroDefinition) (mis : List (Nat × MacroInvocation))
    (st : CodegenState) (constant : ConstantDefinition)
    (arg_name2 : String) (macro_def2 : MacroDefinition) (contract2 : Contract)
    (scope2 : List MacroDefinition) (mis2 : List (Nat × MacroInvocation))
    (st2 : CodegenState) (macro_invoc2 : Nat × MacroInvocation) (pos2 : Nat)
    (hc : contract.constants.find? (fun const_def => const_def.name == arg_name) = some constant)
    (hv : constant.value = ConstVal.Literal l)
    (hc2 : contract2.constants.find? (fun const_def => const_def.name == arg_name2) = none)
    (ho2 : opcodeFromStr arg_name2 = none)
    (hm2 : mis2.getLast? = some macro_invoc2)
    (hp2 : macro_def2.parameters.findIdx? (fun r => r.name == some arg_name2) = some pos2)
    (ha2 : macro_invoc2.2.args.get? pos2 = some (MacroArg.Literal l)) :
    1 ≤ (pushPayload l).length ∧ (pushPayload l).length ≤ 32 ∧
    encode_push l = toHex2 (95 + (pushPayload l).length) ++ bytesToHex (pushPayload l) ∧
    (encode_push l).length / 2 = (pushPayload l).length + 1 ∧
    bubble_arg_call arg_name macro_def contract scope mis st =
      some (Except.ok (),
        { st with
          offset := st.offset + ((pushPayload l).length + 1),
          bytes := st.bytes ++ [(st.offset, encode_push l)] }) ∧
    bubble_arg_call arg_name2 macro_def2 contract2 scope2 mis2 st2 =
      some (Except.ok (),
        { st2 with
          offset := st2.offset + ((pushPayload l).length + 1),
          bytes := st2.bytes ++ [(st2.offset, encode_push l)] }) := by
  have h4 : (encode_push l).length / 2 = (pushPayload l).length + 1 := by
    rw [encode_push_length]
    omega
  have h5 := bubble_constant_literal arg_name macro_def contract scope mis st constant l hc hv
  have h6 := bubble_invocation_literal arg_name2 macro_def2 contract2 scope2 mis2 st2
    macro_invoc2 pos2 l hc2 ho2 hm2 hp2 ha2
  rw [h4] at h5 h6
  exact ⟨pushPayload_length_pos l, pushPayload_length_le l hl, encode_push_eq l, h4, h5, h6⟩

/-- C6 witness: the encoding facts and both emission paths at the concrete
32-byte literal 0x2a. -/
theorem bubble_arg_call_push_encoding_witness :
    1 ≤ (pushPayload lit42).length ∧ (pushPayload lit42).length ≤ 32 ∧
    encode_push lit42 = toHex2 (95 + (pushPayload lit42).length) ++ bytesToHex (pushPayload lit42) ∧
    (encode_push lit42).length / 2 = (pushPayload lit42).length + 1 ∧
    bubble_arg_call "add" defC contractAdd [] [] st0 =
      some (Except.ok (),
        { st0 with
          offset := st0.offset + ((pushPayload lit42).length + 1),
          bytes := st0.bytes ++ [(st0.offset, encode_push lit42)] }) ∧
    bubble_arg_call "x" defA emptyContract [defA] [miA] st0 =
      some (Except.ok (),
        { st0 with
          offset := st0.offset + ((pushPayload lit42).length + 1),
          bytes := st0.bytes ++ [(st0.offset, encode_push lit42)] }) :=
  bubble_arg_call_push_encoding lit42 (by decide) "add" defC contractAdd [] [] st0 constAdd
    "x" defA emptyContract [defA] [miA] st0 miA 0
    (by decide) (by decide) (by decide) (by decide) (by decide) (by decide) (by decide)

/-- C7: a parameter whose corresponding top-frame argument is `Ident(id)`
appends the 3-byte `PUSH2` placeholder at the current offset, inserts a Jump
`{label := id, bytecode_index := 0, span := top invocation's span}` at that
same offset in the JumpTable, and advances the offset by exactly 3. -/
theorem bubble_arg_call_ident_jump
    (arg_name : String) (macro_def : MacroDefinition) (contract : Contract)
    (scope : List MacroDefinition) (mis : List (Nat × MacroInvocation))
    (st : CodegenState) (macro_invoc : Nat × MacroInvocation) (pos : Nat)
    (iden : String)
    (hc : contract.constants.find? (fun const_def => const_def.name == arg_name) = none)
    (ho : opcodeFromStr arg_name = none)
    (hm : mis.getLast? = some macro_invoc)
    (hp : macro_def.parameters.findIdx? (fun r => r.name == some arg_name) = some pos)
    (ha : macro_invoc.2.args.get? pos = some (MacroArg.Ident iden)) :
    bubble_arg_call arg_name macro_def contract scope mis st =
      some (Except.ok (),
        { st with
          bytes := st.bytes ++ [(st.offset, push2_placeholder)],
          jump_table := jtInsert st.jump_table st.offset [⟨iden, 0, macro_invoc.2.span⟩],
          offset := st.offset + 3 }) := by
  unfold bubble_arg_call bubble_arg_call_fuel
  simp only [hc, ho, hm, hp, ha]

/-- C7 witness: at the concrete invocation `B(lab)`. -/
theorem bubble_arg_call_ident_jump_witness :
    bubble_arg_call "y" defB emptyContract [defB] [miI] st0 =
      some (Except.ok (),
        { st0 with
          bytes := st0.bytes ++ [(st0.offset, push2_placeholder)],
          jump_table := jtInsert st0.jump_table st0.offset [⟨"lab", 0, miI.2.span⟩],
          offset := st0.offset + 3 }) :=
  bubble_arg_call_ident_jump "y" defB emptyContract [defB] [miI] st0 miI 0 "lab"
    (by decide) (by decide) (by decide) (by decide) (by decide)

/-- C8: every successful call preserves offset–fragment consistency: the
appended fragments form an offset-chained run from the entry offset, and the
final offset equals the entry offset plus the total byte length of the
appended fragments. -/
theorem bubble_arg_call_offset_consistent
    (arg_name : String) (macro_def : MacroDefinition) (contract : Contract)
    (scope : List MacroDefinition) (mis : List (Nat × MacroInvocation))
    (st st' : CodegenState)
    (h : bubble_arg_call arg_name macro_def contract scope mis st =
      some (Except.ok (), st')) :
    ∃ added, st'.bytes = st.bytes ++ added ∧
      chainedFrom st.offset added st'.offset = true ∧
      st'.offset = st.offset + (added.map (fun p => p.2.length / 2)).sum := by
  obtain ⟨added, h1, h2⟩ :=
    bubble_fuel_ok_extends (scope.length + 1) arg_name macro_def contract scope mis st st' h
  exact ⟨added, h1, h2, chainedFrom_sum added st.offset st'.offset h2⟩

/-- C8 witness: a concrete successful run (the literal-argument push of
`A(0x2a)`). -/
theorem bubble_arg_call_offset_consistent_witness :
    ∃ added, ([(0, "602a")] : List (Nat × String)) = st0.bytes ++ added ∧
      chainedFrom st0.offset added 2 = true ∧
      2 = st0.offset + (added.map (fun p => p.2.length / 2)).sum :=
  bubble_arg_call_offset_consistent "x" defA emptyContract [defA] [miA] st0
    ⟨[(0, "602a")], 2, []⟩ (by decide)

/-- C9 (amended): `bubble_arg_call` NEVER fails with
`MissingMacroInvocation`: the bubbling step is only reachable after the
parameter-substitution guard established a non-empty invocation stack, and
the stack is re-examined unchanged, so the error arm is dead code.  Every
returned error has kind `StoragePointersNotDerived`. -/
theorem bubble_arg_call_never_missing_invocation
    (arg_name : String) (macro_def : MacroDefinition) (contract : Contract)
    (scope : List MacroDefinition) (mis : List (Nat × MacroInvocation))
    (st : CodegenState) (e : CodegenError) (st' : CodegenState) (s : String)
    (h : bubble_arg_call arg_name macro_def contract scope mis st =
      some (Except.error e, st')) :
    e.kind ≠ CodegenErrorKind.MissingMacroInvocation s := by
  have h2 :=
    (bubble_fuel_error_frozen (scope.length + 1) arg_name macro_def contract scope mis st e st' h).2
  rw [h2]
  intro hk
  exact CodegenErrorKind.noConfusion hk

/-- C9 counterexample: the claim's scenario — an `ArgCall`-accepting
parameter with an EMPTY invocation stack — does not return
`MissingMacroInvocation`: with no invocation frame the resolver never reaches
the bubbling step and instead emits the label fallback, returning `Ok`. -/
theorem bubble_arg_call_missing_invocation_refuted :
    bubble_arg_call "y" defB emptyContract [defB] [] st0 =
      some (Except.ok (), ⟨[(0, push2_placeholder)], 3, [(0, [⟨"y", 0, []⟩])]⟩) := by decide

/-- C9 witness: at the concrete erroring run (underived storage pointer), the
error kind is not `MissingMacroInvocation`. -/
theorem bubble_arg_call_never_missing_invocation_witness :
    (⟨CodegenErrorKind.StoragePointersNotDerived, [], none⟩ : CodegenError).kind ≠
      CodegenErrorKind.MissingMacroInvocation "B" :=
  bubble_arg_call_never_missing_invocation "FSP_LOC" defC contractFsp [] [] st0
    ⟨CodegenErrorKind.StoragePointersNotDerived, [], none⟩ st0 "B" (by decide)

/-- C10: `bubble_arg_call` is atomic on failure: whenever it returns an
error, the bytes list, the offset and the jump table are exactly as they
were at entry. -/
theorem bubble_arg_call_error_atomic
    (arg_name : String) (macro_def : MacroDefinition) (contract : Contract)
    (scope : List MacroDefinition) (mis : List (Nat × MacroInvocation))
    (st : CodegenState) (e : CodegenError) (st' : CodegenState)
    (h : bubble_arg_call arg_name macro_def contract scope mis st =
      some (Except.error e, st')) :
    st' = st :=
  (bubble_fuel_error_frozen (scope.length + 1) arg_name macro_def contract scope mis st e st' h).1

/-- C10 witness: the concrete erroring run leaves the entry state intact. -/
theorem bubble_arg_call_error_atomic_witness :
    (⟨[], 0, []⟩ : CodegenState) = st0 :=
  bubble_arg_call_error_atomic "FSP_LOC" defC contractFsp [] [] st0
    ⟨CodegenErrorKind.StoragePointersNotDerived, [], none⟩ ⟨[], 0, []⟩ (by decide)

end HuffCodegen

